import Mathlib

/-!
Verification of the Manor-Home-Exercise ingestion pipeline
(`phase1_scraping.py`, `phase2_load.py`) against its natural-language
specification.  The Python code is shallowly embedded: SQLite/Postgres
tables become Lean lists of records, cursors become explicit state
passing, exceptions become `Except`.
-/

namespace Phase1

/-- `MAX_TYPES = 25`, the soft cap on distinct table buckets
(phase1_scraping.py line 57 and phase2_load.py line 26). -/
def MAX_TYPES : Nat := 25

/-- Characters kept by the regex class `[A-Za-z0-9_]` in `sanitize_token`. -/
def isWordChar (c : Char) : Bool :=
  (('A' ≤ c && c ≤ 'Z') || ('a' ≤ c && c ≤ 'z') || ('0' ≤ c && c ≤ '9') || c = '_')

/-- Collapse every run of underscores to a single underscore
(`re.sub(r"_+", "_", s)`). -/
def collapseUnderscores : List Char → List Char
  | [] => []
  | '_' :: rest =>
      match collapseUnderscores rest with
      | '_' :: tail => '_' :: tail
      | tail => '_' :: tail
  | c :: rest => c :: collapseUnderscores rest

/-- `s.strip("_")`: drop leading and trailing underscores. -/
def stripUnderscores (cs : List Char) : List Char :=
  ((cs.dropWhile (· = '_')).reverse.dropWhile (· = '_')).reverse

/-- Embedding of `sanitize_token` (phase1_scraping.py lines 96-108):
replace every character outside `[A-Za-z0-9_]` with `_`, lower-case,
collapse runs of underscores, strip outer underscores, default to
`"table"` when empty, and put `t_` in front of a leading digit. -/
def sanitize_token (token : String) : String :=
  let subbed := token.data.map (fun c => if isWordChar c then c.toLower else '_')
  let s := stripUnderscores (collapseUnderscores subbed)
  let s := if s = [] then "table".data else s
  match s with
  | c :: _ => if c.isDigit then String.mk ('t' :: '_' :: s) else String.mk s
  | [] => String.mk s

/-- Python `f"{n:02d}"` for a natural number: zero-pad to width two. -/
def fmt02 (n : Nat) : String :=
  if n < 10 then "0" ++ toString n else toString n

/-- The canonical bucket name `f"table_{idx:02d}"`. -/
def tableName (i : Nat) : String := "table_" ++ fmt02 i

/-- Byte-wise (ASCII) lexicographic "less than" on strings, modelling the
SQLite BINARY collation used by `ORDER BY canonical DESC`. -/
def strBytesLt : List Char → List Char → Bool
  | [], [] => false
  | [], _ :: _ => true
  | _ :: _, [] => false
  | a :: as, b :: bs =>
      if a.toNat < b.toNat then true
      else if b.toNat < a.toNat then false
      else strBytesLt as bs

/-- `re.search(r"(\d+)$", s)` followed by `int(...)`: the maximal run of
trailing digits, as a number, or `none` when the string does not end in a
digit. -/
def trailingDigits (s : String) : Option Nat :=
  let ds := (s.data.reverse.takeWhile Char.isDigit).reverse
  if ds.isEmpty then none
  else some (ds.foldl (fun a c => a * 10 + (c.toNat - '0'.toNat)) 0)

/-- One row of the `types` table: sanitized token (PRIMARY KEY), canonical
bucket name (UNIQUE), overflow flag.  `first_seen` is irrelevant to every
claim and omitted. -/
structure TypeEntry where
  token : String
  canonical : String
  overflow : Nat
deriving Repr, DecidableEq

/-- The `types` table, in insertion order. -/
abbrev TypesReg := List TypeEntry

/-- `SELECT canonical FROM types ORDER BY canonical DESC LIMIT 1`:
the maximum canonical name under the BINARY (byte-wise) collation. -/
def maxCanonical (reg : TypesReg) : Option String :=
  reg.foldl
    (fun acc e =>
      match acc with
      | none => some e.canonical
      | some a => if strBytesLt a.data e.canonical.data then some e.canonical else some a)
    none

/-- The next bucket index computed by `get_or_alloc_type`
(phase1_scraping.py lines 187-193): one plus the trailing number of the
collation-maximal canonical name, or 1 for an empty registry. -/
def nextIdx (reg : TypesReg) : Nat :=
  match maxCanonical reg with
  | none => 1
  | some c => (trailingDigits c).getD 0 + 1

/-- Embedding of `get_or_alloc_type` (phase1_scraping.py lines 170-208).
Returns the unchanged registry and the existing canonical name when the
sanitized token is already mapped; otherwise inserts a fresh row.  The
`INSERT` surfaces SQLite's PRIMARY KEY / UNIQUE constraints as an error. -/
def get_or_alloc_type (reg : TypesReg) (token : String) : Except String (TypesReg × String) :=
  let t := sanitize_token token
  match reg.find? (fun e => e.token = t) with
  | some e => .ok (reg, e.canonical)
  | none =>
      let i := nextIdx reg
      let canonical := tableName i
      let overflow := if i > MAX_TYPES then 1 else 0
      if reg.any (fun e => e.token = t || e.canonical = canonical) then
        .error "UNIQUE constraint failed"
      else
        .ok (reg ++ [⟨t, canonical, overflow⟩], canonical)

/-- The canonical bucket currently mapped to sanitized token `t`:
`SELECT canonical FROM types WHERE token = t` (token is the PRIMARY KEY). -/
def tokenCanon (reg : TypesReg) (t : String) : Option String :=
  (reg.find? (fun e => e.token = t)).map (·.canonical)

/-- Registry states reachable from `a` by any sequence of further
successful resolutions — "the same or any later run". -/
inductive Reaches : TypesReg → TypesReg → Prop
  | refl (reg : TypesReg) : Reaches reg reg
  | step {a b c : TypesReg} {tok canon : String} :
      get_or_alloc_type a tok = .ok (b, canon) → Reaches b c → Reaches a c

/-- Resolve a list of raw tokens in order, collecting the canonical names;
the first constraint violation aborts, as the uncaught exception would. -/
def allocTokens (reg : TypesReg) : List String → Except String (TypesReg × List String)
  | [] => .ok (reg, [])
  | t :: ts =>
      match get_or_alloc_type reg t with
      | .error e => .error e
      | .ok (reg1, c) =>
          match allocTokens reg1 ts with
          | .error e => .error e
          | .ok (reg2, cs) => .ok (reg2, c :: cs)

/-- A reachable registry holding 100 buckets table_01 … table_100 (built by
resolving 100 distinct fresh tokens from an empty registry). -/
def reg100 : TypesReg :=
  (List.range' 1 100).map (fun i => ⟨"tok" ++ toString i, tableName i, if i > MAX_TYPES then 1 else 0⟩)

/-- A unit of work: `Task(id, yyyy, mm)` (phase1_scraping.py lines 68-73). -/
structure Task where
  id : String
  yyyy : Nat
  mm : Nat
deriving Repr, DecidableEq

/-- A wall-clock reading, `time.localtime(time.time())[:6]`:
(year, month, day, hour, minute, second). -/
structure ZTime where
  year : Nat
  month : Nat
  day : Nat
  hour : Nat
  minute : Nat
  second : Nat
deriving Repr, DecidableEq

/-- The 16-bit DOS date header field as `zipfile` packs it:
`(year - 1980) << 9 | month << 5 | day`. -/
def dosDate (z : ZTime) : Nat :=
  (z.year - 1980) * 512 + z.month * 32 + z.day

/-- The 16-bit DOS time header field as `zipfile` packs it:
`hour << 11 | minute << 5 | second // 2` — note the two-second
resolution of the stored seconds. -/
def dosTime (z : ZTime) : Nat :=
  z.hour * 2048 + z.minute * 32 + z.second / 2

/-- One member of a ZIP archive as serialized by `zipfile.ZipFile.writestr`:
the member name, the two packed DOS date/time header fields exactly as the
library stores them (so two clock readings within the same two-second
DOS slot yield the same stored fields), and the (pre-compression) payload
text.  The on-disk bytes are a deterministic, injective-in-these-fields
function of this record: the name and the packed date/time fields appear
verbatim in the local file header, the CRC/size fields are functions of
the payload, and zlib's deflate of a fixed payload is deterministic. -/
structure ZipEntry where
  name : String
  dos_date : Nat
  dos_time : Nat
  data : String
deriving Repr, DecidableEq

/-- Models the library PRNG `random.Random(seed)` as a deterministic stream
of naturals fully determined by the seed string.  The concrete values of
CPython's Mersenne Twister are not reproduced; every theorem below relies
only on the stream being a function of the seed alone, which is exactly the
library's documented behaviour for a seeded generator. -/
def rngStream (seed : String) (n : Nat) : Nat :=
  let s0 := seed.data.foldl (fun a c => (a * 31 + c.toNat + 7) % 2147483647) 17
  Nat.rec s0 (fun _ x => (x * 1103515245 + 12345) % 2147483648) (n + 1)

/-- `rng.randint(a, b)` from one raw stream value: inclusive on both ends. -/
def pyRandint (v a b : Nat) : Nat := a + v % (b - a + 1)

/-- `rng.choice(xs)` from one raw stream value. -/
def pyChoice (v : Nat) (xs : List String) : String :=
  (xs.getD (v % xs.length) "")

/-- The seed `f"{t.id}-{t.yyyy}-{t.mm}"` of `fabricate_zip_bytes`. -/
def taskSeed (t : Task) : String :=
  t.id ++ "-" ++ toString t.yyyy ++ "-" ++ toString t.mm

/-- The token pool `[f"token_{i:02d}" for i in range(1, 36)]`. -/
def fabTokens : List String := (List.range' 1 35).map (fun i => "token_" ++ fmt02 i)

/-- The CSV text produced for one member: header `col_a,col_b,value` plus
three data rows, written by `csv.writer` (comma delimiter, CRLF line
terminator, minimal quoting — never triggered by these values). -/
def fabCsv (n0 n1 n2 : Nat) : String :=
  "col_a,col_b,value\r\n" ++
  "A0,B0," ++ toString n0 ++ "\r\n" ++
  "A1,B1," ++ toString n1 ++ "\r\n" ++
  "A2,B2," ++ toString n2 ++ "\r\n"

/-- The members written by the loop in `fabricate_zip_bytes`
(phase1_scraping.py lines 287-296).  `k` counts the files still to write,
`d` is the index of the next unconsumed PRNG draw, and `now` is the clock
value `writestr` reads, packs into DOS form and stamps into each member's
header. -/
def fabLoop (t : Task) (now : ZTime) : Nat → Nat → List ZipEntry
  | 0, _ => []
  | k + 1, d =>
      let tok := pyChoice (rngStream (taskSeed t) d) fabTokens
      let name := t.id ++ "_" ++ toString t.yyyy ++ "-" ++ fmt02 t.mm ++ "_" ++ tok ++ ".csv"
      let n0 := pyRandint (rngStream (taskSeed t) (d + 1)) 1 100
      let n1 := pyRandint (rngStream (taskSeed t) (d + 2)) 1 100
      let n2 := pyRandint (rngStream (taskSeed t) (d + 3)) 1 100
      ⟨name, dosDate now, dosTime now, fabCsv n0 n1 n2⟩ :: fabLoop t now k (d + 4)

/-- Embedding of `fabricate_zip_bytes` (phase1_scraping.py lines 276-297):
a PRNG seeded from the task identity chooses 1-3 members and their
contents; `now` is the wall clock that `ZipFile.writestr` reads and stores
(packed to DOS resolution) into every member's `date_time` header
fields. -/
def fabricate_zip_bytes (t : Task) (now : ZTime) : List ZipEntry :=
  let count := pyRandint (rngStream (taskSeed t) 0) 1 3
  fabLoop t now count 1

-- -------------------- manifest / already_ok --------------------

/-- One row of the `manifest` table (only the fields `already_ok` reads).
`zip_path` is nullable, hence an `Option`. -/
structure ManifestRow where
  status : String
  zip_path : Option String
deriving Repr, DecidableEq

/-- The manifest keyed by `(id, yyyy, mm)`. -/
abbrev Manifest := List ((String × Nat × Nat) × ManifestRow)

/-- `SELECT status, zip_path FROM manifest WHERE id=? AND yyyy=? AND mm=?`
(the key is a PRIMARY KEY, so at most one row matches). -/
def manifestLookup (m : Manifest) (t : Task) : Option ManifestRow :=
  (m.find? (fun r => r.1 = (t.id, t.yyyy, t.mm))).map (·.2)

/-- Embedding of `already_ok` (phase1_scraping.py lines 327-335), with the
filesystem `Path(...).exists()` abstracted as the predicate `fs`:
`bool(row and row[0] == "ok" and row[1] and Path(row[1]).exists())`.
Python truthiness of `row[1]`: `None` and the empty string are falsy. -/
def already_ok (m : Manifest) (fs : String → Bool) (t : Task) : Bool :=
  match manifestLookup m t with
  | none => false
  | some row =>
      row.status = "ok" &&
      (match row.zip_path with
       | none => false
       | some p => !(p = "") && fs p)

/-- The guard at the top of `process_task` (phase1_scraping.py line 349):
the task's work is skipped exactly when `already_ok` holds. -/
def process_task_skipped (m : Manifest) (fs : String → Bool) (t : Task) : Bool :=
  already_ok m fs t

-- -------------------- decoding (normalize_and_write_csv) --------------------

/-- Is `c` a UTF-8 continuation byte (0x80-0xBF)? -/
def isCont (c : Nat) : Bool := 128 ≤ c && c ≤ 191

/-- Strict UTF-8 decoding of a byte sequence, `bytes.decode("utf-8")`:
`none` models a raised `UnicodeDecodeError`.  The accepted sequences are
exactly RFC 3629's: no overlong forms, no surrogates, nothing above
U+10FFFF. -/
def utf8Decode : List Nat → Option (List Char)
  | [] => some []
  | b :: rest =>
      if b < 128 then (utf8Decode rest).map (Char.ofNat b :: ·)
      else if b < 194 then none
      else if b ≤ 223 then
        match rest with
        | c1 :: rest2 =>
            if isCont c1 then
              (utf8Decode rest2).map (Char.ofNat ((b - 192) * 64 + (c1 - 128)) :: ·)
            else none
        | [] => none
      else if b ≤ 239 then
        match rest with
        | c1 :: c2 :: rest3 =>
            if (if b = 224 then 160 ≤ c1 && c1 ≤ 191
                else if b = 237 then 128 ≤ c1 && c1 ≤ 159
                else isCont c1) && isCont c2 then
              (utf8Decode rest3).map
                (Char.ofNat ((b - 224) * 4096 + (c1 - 128) * 64 + (c2 - 128)) :: ·)
            else none
        | _ => none
      else if b ≤ 244 then
        match rest with
        | c1 :: c2 :: c3 :: rest4 =>
            if (if b = 240 then 144 ≤ c1 && c1 ≤ 191
                else if b = 244 then 128 ≤ c1 && c1 ≤ 143
                else isCont c1) && isCont c2 && isCont c3 then
              (utf8Decode rest4).map
                (Char.ofNat ((b - 240) * 262144 + (c1 - 128) * 4096 + (c2 - 128) * 64 + (c3 - 128)) :: ·)
            else none
        | _ => none
      else none

/-- The replacement character U+FFFD. -/
def replChar : Char := Char.ofNat 65533

/-- Total UTF-8 decoding with lossy substitution,
`bytes.decode("utf-8", errors="replace")`: every invalid maximal subpart
becomes one U+FFFD.  Totality is checked by Lean's termination checker —
this is the "last resort" branch that can never fail. -/
def utf8Replace : List Nat → List Char
  | [] => []
  | b :: rest =>
      if b < 128 then Char.ofNat b :: utf8Replace rest
      else if b < 194 then replChar :: utf8Replace rest
      else if b ≤ 223 then
        match rest with
        | c1 :: rest2 =>
            if isCont c1 then Char.ofNat ((b - 192) * 64 + (c1 - 128)) :: utf8Replace rest2
            else replChar :: utf8Replace (c1 :: rest2)
        | [] => [replChar]
      else if b ≤ 239 then
        match rest with
        | c1 :: rest2 =>
            if (if b = 224 then 160 ≤ c1 && c1 ≤ 191
                else if b = 237 then 128 ≤ c1 && c1 ≤ 159
                else isCont c1) then
              match rest2 with
              | c2 :: rest3 =>
                  if isCont c2 then
                    Char.ofNat ((b - 224) * 4096 + (c1 - 128) * 64 + (c2 - 128)) :: utf8Replace rest3
                  else replChar :: utf8Replace (c2 :: rest3)
              | [] => [replChar]
            else replChar :: utf8Replace (c1 :: rest2)
        | [] => [replChar]
      else if b ≤ 244 then
        match rest with
        | c1 :: rest2 =>
            if (if b = 240 then 144 ≤ c1 && c1 ≤ 191
                else if b = 244 then 128 ≤ c1 && c1 ≤ 143
                else isCont c1) then
              match rest2 with
              | c2 :: rest3 =>
                  if isCont c2 then
                    match rest3 with
                    | c3 :: rest4 =>
                        if isCont c3 then
                          Char.ofNat ((b - 240) * 262144 + (c1 - 128) * 4096 + (c2 - 128) * 64 + (c3 - 128)) :: utf8Replace rest4
                        else replChar :: utf8Replace (c3 :: rest4)
                    | [] => [replChar]
                  else replChar :: utf8Replace (c2 :: rest3)
              | [] => [replChar]
            else replChar :: utf8Replace (c1 :: rest2)
        | [] => [replChar]
      else replChar :: utf8Replace rest

/-- The cp1255 (Windows-1255) decoding table for bytes 0x80-0xFF, as in the
standard library codec: `none` is an UNDEFINED position, on which
`bytes.decode("cp1255")` raises. -/
def cp1255Hi (b : Nat) : Option Nat :=
  if b = 128 then some 8364
  else if b = 130 then some 8218
  else if b = 131 then some 402
  else if b = 132 then some 8222
  else if b = 133 then some 8230
  else if b = 134 then some 8224
  else if b = 135 then some 8225
  else if b = 136 then some 710
  else if b = 137 then some 8240
  else if b = 139 then some 8249
  else if b = 145 then some 8216
  else if b = 146 then some 8217
  else if b = 147 then some 8220
  else if b = 148 then some 8221
  else if b = 149 then some 8226
  else if b = 150 then some 8211
  else if b = 151 then some 8212
  else if b = 152 then some 732
  else if b = 153 then some 8482
  else if b = 155 then some 8250
  else if b = 164 then some 8362
  else if b = 170 then some 215
  else if b = 186 then some 247
  else if 160 ≤ b && b ≤ 191 then some b
  else if 192 ≤ b && b ≤ 207 then some (b + 1264)
  else if 208 ≤ b && b ≤ 211 then some (b + 1264)
  else if 212 ≤ b && b ≤ 216 then some (b + 1308)
  else if 224 ≤ b && b ≤ 250 then some (b + 1264)
  else if b = 253 then some 8206
  else if b = 254 then some 8207
  else none

/-- `bytes.decode("cp1255")`: ASCII bytes map to themselves, high bytes go
through the codec table; an UNDEFINED position raises (modelled `none`). -/
def cp1255Decode (bs : List Nat) : Option (List Char) :=
  bs.mapM (fun b => if b < 128 then some (Char.ofNat b) else (cp1255Hi b).map Char.ofNat)

/-- The decoding step of `normalize_and_write_csv` (phase1_scraping.py
lines 247-254): try UTF-8, on `UnicodeDecodeError` try cp1255, on a second
`UnicodeDecodeError` fall back to UTF-8 with lossy replacement.  The
result is `Except`-valued so that "the function raises" is representable
at all; the theorems show the error constructor is never produced. -/
def decode_bytes (bs : List Nat) : Except String (List Char) :=
  match utf8Decode bs with
  | some text => .ok text
  | none =>
      match cp1255Decode bs with
      | some text => .ok text
      | none => .ok (utf8Replace bs)

end Phase1

namespace Phase2

-- -------------------- infer_type --------------------

/-- Strip one optional leading sign, the regex piece `[-+]?`. -/
def dropSign : List Char → List Char
  | [] => []
  | c :: rest => if c = '+' || c = '-' then rest else c :: rest

/-- `re.fullmatch(r"[-+]?\d+", v)` (digits modelled as ASCII `0-9`). -/
def isIntStr (v : String) : Bool :=
  let cs := dropSign v.data
  !cs.isEmpty && cs.all Char.isDigit

/-- `re.fullmatch(r"[-+]?\d+(\.\d+)?", v)` (digits modelled as ASCII). -/
def isNumStr (v : String) : Bool :=
  let cs := dropSign v.data
  let ds := cs.takeWhile Char.isDigit
  let rest := cs.drop ds.length
  !ds.isEmpty &&
    (match rest with
     | [] => true
     | '.' :: fs => !fs.isEmpty && fs.all Char.isDigit
     | _ => false)

/-- Numeric value of an ASCII digit character. -/
def digitVal (c : Char) : Nat := c.toNat - 48

/-- strptime directive `%Y`: exactly four digits. -/
def parseYear : List Char → Option (Nat × List Char)
  | a :: b :: c :: d :: rest =>
      if a.isDigit && b.isDigit && c.isDigit && d.isDigit then
        some (digitVal a * 1000 + digitVal b * 100 + digitVal c * 10 + digitVal d, rest)
      else none
  | _ => none

/-- strptime directive `%m`, regex alternation `1[0-2]|0[1-9]|[1-9]`,
alternatives tried in the regex's order. -/
def parseMonth : List Char → Option (Nat × List Char)
  | c0 :: c1 :: rest =>
      if c0 = '1' && ('0' ≤ c1 && c1 ≤ '2') then some (10 + digitVal c1, rest)
      else if c0 = '0' && ('1' ≤ c1 && c1 ≤ '9') then some (digitVal c1, rest)
      else if '1' ≤ c0 && c0 ≤ '9' then some (digitVal c0, c1 :: rest)
      else none
  | [c0] => if '1' ≤ c0 && c0 ≤ '9' then some (digitVal c0, []) else none
  | [] => none

/-- strptime directive `%d`, regex `3[01]|[12]\d|0[1-9]|[1-9]`. -/
def parseDay : List Char → Option (Nat × List Char)
  | c0 :: c1 :: rest =>
      if c0 = '3' && (c1 = '0' || c1 = '1') then some (30 + digitVal c1, rest)
      else if (c0 = '1' || c0 = '2') && c1.isDigit then some (digitVal c0 * 10 + digitVal c1, rest)
      else if c0 = '0' && ('1' ≤ c1 && c1 ≤ '9') then some (digitVal c1, rest)
      else if '1' ≤ c0 && c0 ≤ '9' then some (digitVal c0, c1 :: rest)
      else none
  | [c0] => if '1' ≤ c0 && c0 ≤ '9' then some (digitVal c0, []) else none
  | [] => none

/-- strptime directive `%H`, regex `2[0-3]|[0-1]\d|\d`. -/
def parseHour : List Char → Option (Nat × List Char)
  | c0 :: c1 :: rest =>
      if c0 = '2' && ('0' ≤ c1 && c1 ≤ '3') then some (20 + digitVal c1, rest)
      else if (c0 = '0' || c0 = '1') && c1.isDigit then some (digitVal c0 * 10 + digitVal c1, rest)
      else if c0.isDigit then some (digitVal c0, c1 :: rest)
      else none
  | [c0] => if c0.isDigit then some (digitVal c0, []) else none
  | [] => none

/-- strptime directive `%M`, regex `[0-5]\d|\d`. -/
def parseMinute : List Char → Option (Nat × List Char)
  | c0 :: c1 :: rest =>
      if ('0' ≤ c0 && c0 ≤ '5') && c1.isDigit then some (digitVal c0 * 10 + digitVal c1, rest)
      else if c0.isDigit then some (digitVal c0, c1 :: rest)
      else none
  | [c0] => if c0.isDigit then some (digitVal c0, []) else none
  | [] => none

/-- strptime directive `%S`, regex `6[0-1]|[0-5]\d|\d` (the regex admits
leap seconds 60 and 61; the datetime constructor then rejects them). -/
def parseSecond : List Char → Option (Nat × List Char)
  | c0 :: c1 :: rest =>
      if c0 = '6' && (c1 = '0' || c1 = '1') then some (60 + digitVal c1, rest)
      else if ('0' ≤ c0 && c0 ≤ '5') && c1.isDigit then some (digitVal c0 * 10 + digitVal c1, rest)
      else if c0.isDigit then some (digitVal c0, c1 :: rest)
      else none
  | [c0] => if c0.isDigit then some (digitVal c0, []) else none
  | [] => none

/-- A literal separator character in a strptime format. -/
def parseLit (c : Char) : List Char → Option (List Char)
  | x :: rest => if x = c then some rest else none
  | [] => none

/-- Gregorian leap year, as `datetime` uses. -/
def isLeap (y : Nat) : Bool := y % 4 = 0 && (!(y % 100 = 0) || y % 400 = 0)

/-- Length of a month, as validated by the `datetime` constructor. -/
def daysInMonth (y m : Nat) : Nat :=
  if m = 2 then (if isLeap y then 29 else 28)
  else if m = 4 || m = 6 || m = 9 || m = 11 then 30
  else 31

/-- The range checks performed by `datetime.datetime(y, mo, d, h, mi, s)`:
out-of-range components raise ValueError, which strptime propagates. -/
def validDateTime (y mo d h mi s : Nat) : Bool :=
  1 ≤ y && y ≤ 9999 && 1 ≤ mo && mo ≤ 12 && 1 ≤ d && d ≤ daysInMonth y mo &&
  h ≤ 23 && mi ≤ 59 && s ≤ 59

/-- strptime with format `%Y-%m-%d` against the whole string. -/
def fmtYmd (sep : Char) (cs : List Char) : Bool :=
  match parseYear cs with
  | none => false
  | some (y, r1) =>
      match parseLit sep r1 with
      | none => false
      | some r2 =>
          match parseMonth r2 with
          | none => false
          | some (mo, r3) =>
              match parseLit sep r3 with
              | none => false
              | some r4 =>
                  match parseDay r4 with
                  | none => false
                  | some (d, r5) => r5.isEmpty && validDateTime y mo d 0 0 0

/-- strptime with format `%Y-%m-%d %H:%M:%S` against the whole string. -/
def fmtYmdHms (cs : List Char) : Bool :=
  match parseYear cs with
  | none => false
  | some (y, r1) =>
      match parseLit '-' r1 with
      | none => false
      | some r2 =>
          match parseMonth r2 with
          | none => false
          | some (mo, r3) =>
              match parseLit '-' r3 with
              | none => false
              | some r4 =>
                  match parseDay r4 with
                  | none => false
                  | some (d, r5) =>
                      match parseLit ' ' r5 with
                      | none => false
                      | some r6 =>
                          match parseHour r6 with
                          | none => false
                          | some (h, r7) =>
                              match parseLit ':' r7 with
                              | none => false
                              | some r8 =>
                                  match parseMinute r8 with
                                  | none => false
                                  | some (mi, r9) =>
                                      match parseLit ':' r9 with
                                      | none => false
                                      | some r10 =>
                                          match parseSecond r10 with
                                          | none => false
                                          | some (s, r11) =>
                                              r11.isEmpty && validDateTime y mo d h mi s

/-- strptime with format `%d/%m/%Y` against the whole string. -/
def fmtDmy (cs : List Char) : Bool :=
  match parseDay cs with
  | none => false
  | some (d, r1) =>
      match parseLit '/' r1 with
      | none => false
      | some r2 =>
          match parseMonth r2 with
          | none => false
          | some (mo, r3) =>
              match parseLit '/' r3 with
              | none => false
              | some r4 =>
                  match parseYear r4 with
                  | none => false
                  | some (y, r5) => r5.isEmpty && validDateTime y mo d 0 0 0

/-- The date test of `infer_type` (phase2_load.py lines 55-62): the value
parses under one of the fixed formats `%Y-%m-%d`, `%Y-%m-%d %H:%M:%S`,
`%Y/%m/%d`, `%d/%m/%Y`. -/
def matchesDate (v : String) : Bool :=
  fmtYmd '-' v.data || fmtYmdHms v.data || fmtYmd '/' v.data || fmtDmy v.data

/-- The scanning loop of `infer_type` (phase2_load.py lines 45-64): skip
empty values, let each non-empty value falsify the int/num/date flags, and
return "text" as soon as all three flags are down. -/
def inferLoop : List String → Bool → Bool → Bool → String
  | [], ints, nums, dates =>
      if ints then "bigint" else if nums then "numeric"
      else if dates then "timestamp" else "text"
  | v :: rest, ints, nums, dates =>
      if v = "" then inferLoop rest ints nums dates
      else
        let ints' := ints && isIntStr v
        let nums' := nums && isNumStr v
        let dates' := dates && matchesDate v
        if !(ints' || nums' || dates') then "text"
        else inferLoop rest ints' nums' dates'

/-- Embedding of `infer_type` (phase2_load.py lines 36-68). -/
def infer_type (values : List String) : String :=
  if values.isEmpty then "text" else inferLoop values true true true

-- -------------------- loader state --------------------

/-- One row of `lineage.files` (the fields the loader uses). -/
structure FileRec where
  file_id : Nat
  rel_path : String
  table_name : String
  entity_id : String
  yyyy : Nat
  mm : Nat
  filename : String
  file_sha256 : String
deriving Repr, DecidableEq

/-- One row of `staging.rows`; `rec` is the JSONB object as an association
list of string fields (the shape `csv.DictReader` produces); the source
calls this column `rec`, which Lean reserves for the recursor. -/
structure StagedRow where
  file_id : Nat
  row_num : Nat
  table_name : String
  entity_id : String
  yyyy : Nat
  mm : Nat
  rec_ : List (String × String)
deriving Repr, DecidableEq

/-- One row of `lineage.schema_registry`. -/
structure SchemaEntry where
  table_name : String
  column_name : String
  data_type : String
  version : Nat
deriving Repr, DecidableEq

/-- One row of a canonical table `public.{table}`.  Each evolved column
holds the staged string cast to the column's type; the cast
`(rec ->> col)::type` is modelled as the pair of the raw string (absent
for a row lacking that field, i.e. SQL NULL) and the target type name. -/
structure CanonRow where
  table_name : String
  src_file_id : Nat
  src_row_num : Nat
  batch_id : Nat
  entity_id : String
  yyyy : Nat
  mm : Nat
  fields : List (String × String × Option String)
deriving Repr, DecidableEq

/-- The loader-visible database state: lineage, staging, the canonical
tables with their live column lists (information_schema), and the schema
registry. -/
structure PgState where
  next_file_id : Nat
  files : List FileRec
  staging : List StagedRow
  tables : List (String × List String)
  registry : List SchemaEntry
  canonical : List CanonRow
deriving Repr, DecidableEq

/-- The empty database right after the bootstrap DDL. -/
def initState : PgState := ⟨1, [], [], [], [], []⟩

/-- The six lineage/meta columns every canonical table starts with and
which `ensure_columns` and the merge projection skip. -/
def metaCols : List String :=
  ["src_file_id", "src_row_num", "batch_id", "entity_id", "yyyy", "mm"]

/-- Embedding of `register_file` (phase2_load.py lines 147-158):
`ON CONFLICT (file_sha256) DO NOTHING`, then fetch the existing id when
the insert inserted nothing. -/
def register_file (st : PgState) (rel_path table_name entity_id : String)
    (yyyy mm : Nat) (filename sha256 : String) : PgState × Nat :=
  match st.files.find? (fun f => f.file_sha256 = sha256) with
  | some f => (st, f.file_id)
  | none =>
      let fid := st.next_file_id
      ({ st with
          next_file_id := fid + 1,
          files := st.files ++ [⟨fid, rel_path, table_name, entity_id, yyyy, mm, filename, sha256⟩] },
        fid)

/-- Embedding of `load_csv_to_staging` (phase2_load.py lines 161-182):
insert one staged row per parsed record, numbered from 1 with the header
excluded.  The 10000-row batching of `execute_values` only groups the
inserts and is dropped. -/
def load_csv_to_staging (st : PgState) (file_id : Nat) (table_name entity_id : String)
    (yyyy mm : Nat) (recs : List (List (String × String))) : PgState × Nat :=
  let rows := (recs.enumFrom 1).map
    (fun p => (⟨file_id, p.1, table_name, entity_id, yyyy, mm, p.2⟩ : StagedRow))
  ({ st with staging := st.staging ++ rows }, rows.length)

/-- Embedding of `ensure_canonical_table` (phase2_load.py lines 185-196):
`CREATE TABLE IF NOT EXISTS` with the six meta columns. -/
def ensure_canonical_table (st : PgState) (table_name : String) : PgState :=
  match st.tables.find? (fun t => t.1 = table_name) with
  | some _ => st
  | none => { st with tables := st.tables ++ [(table_name, metaCols)] }

/-- Embedding of `discover_keys_for_file` (phase2_load.py lines 198-205):
the distinct JSON keys over the file's staged rows (modelled in first-seen
order; SQL leaves the order unspecified). -/
def discover_keys_for_file (st : PgState) (file_id : Nat) : List String :=
  ((st.staging.filter (fun r => r.file_id = file_id)).flatMap (fun r => r.rec_.map (·.1))).dedup

/-- Embedding of `sample_types_for_keys` (phase2_load.py lines 229-240):
for each key, run `infer_type` on up to 500 of the file's staged values
that have the key. -/
def sample_types_for_keys (st : PgState) (file_id : Nat) (keys : List String) :
    List (String × String) :=
  keys.map (fun k =>
    let vals := (((st.staging.filter
        (fun r => r.file_id = file_id && (r.rec_.find? (fun p => p.1 = k)).isSome)).take 500).filterMap
        (fun r => (r.rec_.find? (fun p => p.1 = k)).map (·.2)))
    (k, infer_type vals))

/-- The key-processing loop of `ensure_columns` (phase2_load.py lines
213-227).  `snapshot` is the column list read from information_schema once,
before the loop; `cols` is the table's live column list.  The registry
write is `INSERT ... ON CONFLICT (table_name, column_name) DO UPDATE SET
data_type = EXCLUDED.data_type` with the constant `version = 1`.
(A duplicate key in `keys` would make the real ALTER TABLE raise; keys come
from SELECT DISTINCT, so the theorems assume `keys.Nodup`.) -/
def evolveKeys (snapshot : List String) (table_name : String)
    (types : List (String × String)) :
    List String → List String × List SchemaEntry → List String × List SchemaEntry
  | [], acc => acc
  | k :: ks, (cols, reg) =>
      if k ∈ metaCols then evolveKeys snapshot table_name types ks (cols, reg)
      else if k ∈ snapshot then evolveKeys snapshot table_name types ks (cols, reg)
      else
        let dt := ((types.find? (fun p => p.1 = k)).map (·.2)).getD "text"
        let cols' := cols ++ [k]
        let reg' :=
          match reg.find? (fun e => e.table_name = table_name && e.column_name = k) with
          | some _ => reg.map (fun e =>
              if e.table_name = table_name && e.column_name = k then
                { e with data_type := dt } else e)
          | none => reg ++ [⟨table_name, k, dt, 1⟩]
        evolveKeys snapshot table_name types ks (cols', reg')

/-- Embedding of `ensure_columns` (phase2_load.py lines 207-227) at the
whole-state level. -/
def ensure_columns (st : PgState) (table_name : String) (keys : List String)
    (types : List (String × String)) : PgState :=
  let snapshot := (((st.tables.find? (fun t => t.1 = table_name)).map (·.2)).getD [])
  let res := evolveKeys snapshot table_name types keys (snapshot, st.registry)
  { st with
      tables := st.tables.map (fun t => if t.1 = table_name then (t.1, res.1) else t),
      registry := res.2 }

/-- Embedding of `merge_file_into_canonical` (phase2_load.py lines
242-264): discover the file's keys, sample types, evolve the canonical
table, then insert one canonical row per staged row of the file,
projecting each non-meta key through the cast to its sampled type. -/
def merge_file_into_canonical (st : PgState) (table_name : String) (file_id batch_id : Nat) :
    PgState :=
  let keys := discover_keys_for_file st file_id
  let types := sample_types_for_keys st file_id keys
  let st' := ensure_columns st table_name keys types
  let cols := keys.filter (fun k => k ∉ metaCols)
  let newRows := (st'.staging.filter (fun r => r.file_id = file_id)).map
    (fun r => (⟨table_name, r.file_id, r.row_num, batch_id, r.entity_id, r.yyyy, r.mm,
        cols.map (fun c =>
          (c, (((types.find? (fun p => p.1 = c)).map (·.2)).getD "text",
               (r.rec_.find? (fun p => p.1 = c)).map (·.2))))⟩ : CanonRow))
  { st' with canonical := st'.canonical ++ newRows }

/-- The per-file body of the driver loop `run` (phase2_load.py lines
280-313): register the file by content hash, then — the re-run guard at
lines 298-304 — if staging already holds rows for that file id, skip
staging and go straight to ensure + merge; otherwise stage the parsed
records first, then ensure + merge. -/
def run_file_step (st : PgState) (batch_id : Nat) (rel_path table_name entity_id : String)
    (yyyy mm : Nat) (filename sha256 : String) (recs : List (List (String × String))) :
    PgState :=
  let res := register_file st rel_path table_name entity_id yyyy mm filename sha256
  let st := res.1
  let file_id := res.2
  if st.staging.any (fun r => r.file_id = file_id) then
    let st := ensure_canonical_table st table_name
    merge_file_into_canonical st table_name file_id batch_id
  else
    let st := (load_csv_to_staging st file_id table_name entity_id yyyy mm recs).1
    let st := ensure_canonical_table st table_name
    merge_file_into_canonical st table_name file_id batch_id

/-- The columns one evolution pass adds for `ks`: the keys that are
neither reserved meta columns nor already present in the snapshot of
existing columns. -/
def newColsOf (snapshot : List String) (ks : List String) : List String :=
  ks.filter (fun k => decide (k ∉ metaCols) && decide (k ∉ snapshot))

/-- The schema-registry rows one evolution pass appends: one per added
column, keyed by (table, column), with the sampled type (default text)
and the constant version marker 1 the code writes. -/
def regAdds (table_name : String) (types : List (String × String)) (snapshot : List String)
    (ks : List String) : List SchemaEntry :=
  (newColsOf snapshot ks).map
    (fun k => ⟨table_name, k, (((types.find? (fun p => p.1 = k)).map (·.2))).getD "text", 1⟩)

/-- One normalized CSV with a single data row, used to exercise the loader
twice over unchanged phase-one output. -/
def oneRowRecs : List (List (String × String)) := [[("col_a", "A0"), ("col_b", "1")]]

/-- First loader run over the file (batch 1): nothing staged yet. -/
def rerunState1 : PgState :=
  run_file_step initState 1 "data/normalized/table_01/00001/2020/03/f.csv"
    "table_01" "00001" 2020 3 "f.csv" "sha1" oneRowRecs

/-- Second loader run over byte-identical phase-one output (batch 2): the
file hash resolves to the same file id, whose rows are already staged. -/
def rerunState2 : PgState :=
  run_file_step rerunState1 2 "data/normalized/table_01/00001/2020/03/f.csv"
    "table_01" "00001" 2020 3 "f.csv" "sha1" oneRowRecs

end Phase2

/-! ## Theorems -/

namespace Phase2

/-- The scanning loop of infer_type computes, for each of the three
classes, whether every non-empty value matches, and applies the
int → num → date → text precedence; the early "text" return does not
change the outcome. -/
theorem inferLoop_eq (vs : List String) : ∀ i n d : Bool,
    inferLoop vs i n d =
      (if i && vs.all (fun v => v = "" || isIntStr v) then "bigint"
       else if n && vs.all (fun v => v = "" || isNumStr v) then "numeric"
       else if d && vs.all (fun v => v = "" || matchesDate v) then "timestamp"
       else "text") := by
  induction vs with
  | nil => intro i n d; simp [inferLoop]
  | cons v vs ih =>
      intro i n d
      by_cases hv : v = ""
      · subst hv; simp [inferLoop, ih]
      · cases hint : isIntStr v <;> cases hnum : isNumStr v <;> cases hdate : matchesDate v <;>
          cases i <;> cases n <;> cases d <;>
          simp [inferLoop, hv, hint, hnum, hdate, ih]

/-- C6: type inference precedence is integer → decimal → timestamp → text,
a class above text is chosen only when every non-empty sampled value
matches it, and the three sample lists from the specification classify as
text, bigint and numeric respectively. -/
theorem claim_C6_type_inference_precedence :
    infer_type ["1", "2", "x"] = "text" ∧
    infer_type ["1", "2", "3"] = "bigint" ∧
    infer_type ["1.5", "2"] = "numeric" ∧
    ∀ vs : List String,
      infer_type vs =
        (if vs.isEmpty then "text"
         else if vs.all (fun v => v = "" || isIntStr v) then "bigint"
         else if vs.all (fun v => v = "" || isNumStr v) then "numeric"
         else if vs.all (fun v => v = "" || matchesDate v) then "timestamp"
         else "text") := by
  refine ⟨by decide, by decide, by decide, fun vs => ?_⟩
  unfold infer_type
  rw [inferLoop_eq]
  simp

/-- C10: a non-empty sample whose values are all empty strings is
classified bigint — every value is skipped, no flag is falsified, and the
integer flag wins. -/
theorem claim_C10_all_empty_is_bigint (vs : List String) (hne : vs ≠ [])
    (hall : ∀ v ∈ vs, v = "") : infer_type vs = "bigint" := by
  unfold infer_type
  rw [inferLoop_eq]
  have h1 : vs.all (fun v => v = "" || isIntStr v) = true := by
    simp only [List.all_eq_true]
    intro v hv
    simp [hall v hv]
  simp [h1, hne]

/-- Witness for C10 at the concrete sample consisting of two empty
strings. -/
theorem claim_C10_witness : infer_type ["", ""] = "bigint" :=
  claim_C10_all_empty_is_bigint ["", ""] (by decide) (by decide)

/-- C1 (code bug): running the loader twice over one unchanged normalized
file leaves staging unchanged on the second run, but the re-run guard
(phase2_load.py lines 298-304) calls the merge again, so the canonical
table gains a second copy of every row of the file instead of staying
unchanged. -/
theorem claim_C1_rerun_duplicates_canonical :
    (rerunState1.staging.countP (fun r => r.file_id = 1) = 1 ∧
     rerunState2.staging.countP (fun r => r.file_id = 1) = 1) ∧
    rerunState1.canonical.countP (fun r => r.src_file_id = 1) = 1 ∧
    rerunState2.canonical.countP (fun r => r.src_file_id = 1) = 2 := by
  decide

/-- The member list built by the fabrication loop carries its clock
argument only into the date_time header field: names and payloads are
independent of it. -/
theorem fabLoop_core_independent (t : Phase1.Task) (now1 now2 : Phase1.ZTime) :
    ∀ k d, (Phase1.fabLoop t now1 k d).map (fun e => (e.name, e.data)) =
      (Phase1.fabLoop t now2 k d).map (fun e => (e.name, e.data)) := by
  intro k
  induction k with
  | zero => intro d; rfl
  | succ k ih => intro d; simp [Phase1.fabLoop, ih]

/-- C4 counterexample: fabricating the archive for the same task at two
clock readings two seconds apart yields different archive contents,
because ZipFile.writestr packs the current local time into each member's
DOS date/time header fields.  (The stored seconds have two-second
resolution — second // 2 — so the readings are chosen two seconds apart,
where the stored field genuinely changes.)  The fabricated bytes are
therefore not a function of the task identity alone. -/
theorem claim_C4_counterexample :
    Phase1.fabricate_zip_bytes ⟨"00001", 2020, 3⟩ ⟨2020, 1, 1, 0, 0, 0⟩ ≠
    Phase1.fabricate_zip_bytes ⟨"00001", 2020, 3⟩ ⟨2020, 1, 1, 0, 0, 2⟩ := by
  decide

/-- C4 (amended): the member names and member payloads of the fabricated
archive are a deterministic function of the Task identity alone; only the
per-member packed DOS date/time header fields additionally depend on the
wall clock at fabrication time. -/
theorem claim_C4_members_deterministic (t : Phase1.Task) (now1 now2 : Phase1.ZTime) :
    (Phase1.fabricate_zip_bytes t now1).map (fun e => (e.name, e.data)) =
    (Phase1.fabricate_zip_bytes t now2).map (fun e => (e.name, e.data)) := by
  unfold Phase1.fabricate_zip_bytes
  exact fabLoop_core_independent t now1 now2 _ 1

end Phase2

namespace Phase1

/-- C8: the normalizer's decoding step is total — for every byte string it
returns a text, never an error: the UTF-8 decoding when the bytes are
valid UTF-8, otherwise the cp1255 decoding when that codec accepts every
byte, otherwise the lossy UTF-8 replacement decoding, which is total by
construction. -/
theorem claim_C8_decode_total_never_raises (bs : List Nat) :
    (∃ text, decode_bytes bs = .ok text) ∧
    decode_bytes bs = .ok ((utf8Decode bs).getD ((cp1255Decode bs).getD (utf8Replace bs))) := by
  cases h1 : utf8Decode bs with
  | some text => exact ⟨⟨text, by simp [decode_bytes, h1]⟩, by simp [decode_bytes, h1]⟩
  | none =>
      cases h2 : cp1255Decode bs with
      | some text => exact ⟨⟨text, by simp [decode_bytes, h1, h2]⟩, by simp [decode_bytes, h1, h2]⟩
      | none =>
          exact ⟨⟨utf8Replace bs, by simp [decode_bytes, h1, h2]⟩, by simp [decode_bytes, h1, h2]⟩

/-- C9: the completion check succeeds exactly when the manifest has a row
for the task whose status is "ok" and whose recorded zip path is non-null,
non-empty and still present on disk; process_task skips the task precisely
in that case, otherwise the task is re-acquired. -/
theorem claim_C9_already_ok_iff (m : Manifest) (fs : String → Bool) (t : Task) :
    process_task_skipped m fs t = already_ok m fs t ∧
    (already_ok m fs t = true ↔
      ∃ row, manifestLookup m t = some row ∧ row.status = "ok" ∧
        ∃ p, row.zip_path = some p ∧ p ≠ "" ∧ fs p = true) := by
  refine ⟨rfl, ?_⟩
  unfold already_ok
  cases hrow : manifestLookup m t with
  | none => simp
  | some row =>
      cases hp : row.zip_path with
      | none => simp [hp]
      | some p => by_cases hps : p = "" <;> simp [hp, hps, and_assoc]

/-- C5: a successful allocation of a fresh token appends exactly one
registry row whose overflow flag is 0 for indices up to the soft cap 25
and 1 from index 26 on, and the allocation still succeeds (processing
continues) either way. -/
theorem claim_C5_overflow_flag (reg : TypesReg) (tok : String)
    (hfresh : sanitize_token tok ∉ reg.map (·.token))
    (hcanon : tableName (nextIdx reg) ∉ reg.map (·.canonical)) :
    get_or_alloc_type reg tok =
      .ok (reg ++ [⟨sanitize_token tok, tableName (nextIdx reg),
            if nextIdx reg > MAX_TYPES then 1 else 0⟩], tableName (nextIdx reg)) ∧
    (nextIdx reg ≤ 25 → (if nextIdx reg > MAX_TYPES then (1 : Nat) else 0) = 0) ∧
    (26 ≤ nextIdx reg → (if nextIdx reg > MAX_TYPES then (1 : Nat) else 0) = 1) := by
  have hfind : reg.find? (fun e => e.token = sanitize_token tok) = none := by
    rw [List.find?_eq_none]
    intro e he
    simp only [decide_eq_true_eq]
    intro h
    exact hfresh (h ▸ List.mem_map_of_mem (·.token) he)
  have hany : reg.any
      (fun e => e.token = sanitize_token tok || e.canonical = tableName (nextIdx reg)) = false := by
    rw [List.any_eq_false]
    intro e he
    simp only [Bool.or_eq_true, decide_eq_true_eq, not_or]
    exact ⟨fun h => hfresh (h ▸ List.mem_map_of_mem (·.token) he),
           fun h => hcanon (h ▸ List.mem_map_of_mem (·.canonical) he)⟩
  refine ⟨?_, ?_, ?_⟩
  · simp only [get_or_alloc_type, hfind, hany]
    simp
  · intro h; simp [MAX_TYPES]; omega
  · intro h; simp [MAX_TYPES]; omega

/-- Witness for C5: allocating the first token in an empty registry. -/
theorem claim_C5_witness :
    get_or_alloc_type [] "a" =
      .ok ([] ++ [⟨sanitize_token "a", tableName (nextIdx []),
            if nextIdx [] > MAX_TYPES then 1 else 0⟩], tableName (nextIdx [])) ∧
    (nextIdx [] ≤ 25 → (if nextIdx [] > MAX_TYPES then (1 : Nat) else 0) = 0) ∧
    (26 ≤ nextIdx [] → (if nextIdx [] > MAX_TYPES then (1 : Nat) else 0) = 1) :=
  claim_C5_overflow_flag [] "a" (by decide) (by decide)

/-- After a successful resolution the sanitized token is mapped to the
returned canonical name. -/
theorem get_or_alloc_lookup {reg reg1 : TypesReg} {tok c : String}
    (h : get_or_alloc_type reg tok = .ok (reg1, c)) :
    tokenCanon reg1 (sanitize_token tok) = some c := by
  simp only [get_or_alloc_type] at h
  cases hf : reg.find? (fun e => e.token = sanitize_token tok) with
  | some e =>
      rw [hf] at h
      simp only [Except.ok.injEq, Prod.mk.injEq] at h
      obtain ⟨h1, h2⟩ := h
      subst h1; subst h2
      unfold tokenCanon
      rw [hf]
      rfl
  | none =>
      rw [hf] at h
      by_cases hany : reg.any
          (fun e => e.token = sanitize_token tok || e.canonical = tableName (nextIdx reg)) = true
      · simp [hany] at h
      · simp only [Bool.not_eq_true] at hany
        simp only [hany, Bool.false_eq_true, if_false, Except.ok.injEq, Prod.mk.injEq] at h
        obtain ⟨h1, h2⟩ := h
        subst h1
        unfold tokenCanon
        rw [List.find?_append, hf]
        simp [h2]

/-- A later successful resolution (of any token) preserves every existing
token → canonical mapping: rows of the types table are never updated or
deleted, only appended. -/
theorem get_or_alloc_preserves {a b : TypesReg} {tok2 c2 : String}
    (h : get_or_alloc_type a tok2 = .ok (b, c2)) :
    ∀ t c, tokenCanon a t = some c → tokenCanon b t = some c := by
  intro t c hl
  obtain ⟨e0, hf0, hc0⟩ := Option.map_eq_some'.mp hl
  simp only [get_or_alloc_type] at h
  cases hf : a.find? (fun e => e.token = sanitize_token tok2) with
  | some e =>
      rw [hf] at h
      simp only [Except.ok.injEq, Prod.mk.injEq] at h
      obtain ⟨h1, _⟩ := h
      subst h1
      exact hl
  | none =>
      rw [hf] at h
      by_cases hany : a.any
          (fun e => e.token = sanitize_token tok2 || e.canonical = tableName (nextIdx a)) = true
      · simp [hany] at h
      · simp only [Bool.not_eq_true] at hany
        simp only [hany, Bool.false_eq_true, if_false, Except.ok.injEq, Prod.mk.injEq] at h
        obtain ⟨h1, _⟩ := h
        subst h1
        unfold tokenCanon
        rw [List.find?_append, hf0]
        simp [hc0]

/-- Reachability preserves every existing token → canonical mapping. -/
theorem reaches_preserves {a b : TypesReg} (h : Reaches a b) :
    ∀ t c, tokenCanon a t = some c → tokenCanon b t = some c := by
  induction h with
  | refl reg => exact fun _ _ hl => hl
  | step hstep _ ih => exact fun t c hl => ih t c (get_or_alloc_preserves hstep t c hl)

/-- C7: once a raw token has been resolved to a canonical bucket,
resolving the same token again — against the state left by the first
resolution or any state reachable from it by later resolutions — returns
the same bucket and leaves the registry unchanged (no new mapping is
inserted). -/
theorem claim_C7_resolve_idempotent (reg reg1 reg2 : TypesReg) (tok c : String)
    (h1 : get_or_alloc_type reg tok = .ok (reg1, c))
    (h2 : Reaches reg1 reg2) :
    get_or_alloc_type reg2 tok = .ok (reg2, c) := by
  have hl : tokenCanon reg2 (sanitize_token tok) = some c :=
    reaches_preserves h2 _ _ (get_or_alloc_lookup h1)
  obtain ⟨e, hf, hc⟩ := Option.map_eq_some'.mp hl
  simp only [get_or_alloc_type]
  rw [hf]
  show Except.ok (reg2, e.canonical) = Except.ok (reg2, c)
  rw [hc]

/-- Witness for C7: resolve "Alpha", then "beta", then "Alpha" again; the
second resolution of "Alpha" returns table_01 with the registry
unchanged. -/
theorem claim_C7_witness :
    get_or_alloc_type [⟨"alpha", "table_01", 0⟩, ⟨"beta", "table_02", 0⟩] "Alpha" =
      .ok ([⟨"alpha", "table_01", 0⟩, ⟨"beta", "table_02", 0⟩], "table_01") :=
  claim_C7_resolve_idempotent [] [⟨"alpha", "table_01", 0⟩]
    [⟨"alpha", "table_01", 0⟩, ⟨"beta", "table_02", 0⟩] "Alpha" "table_01"
    rfl
    (@Reaches.step [⟨"alpha", "table_01", 0⟩]
      [⟨"alpha", "table_01", 0⟩, ⟨"beta", "table_02", 0⟩]
      [⟨"alpha", "table_01", 0⟩, ⟨"beta", "table_02", 0⟩] "beta" "table_02" rfl
      (Reaches.refl _))

/-- Consecutive bucket names below the three-digit regime are ordered by
the byte-wise collation exactly like their indices. -/
theorem tableName_lt_succ : ∀ j < 99, 1 ≤ j → strBytesLt (tableName j).data (tableName (j+1)).data = true := by decide

/-- The trailing-digit parse recovers the index of a bucket name. -/
theorem tableName_trailing : ∀ m < 101, 1 ≤ m → trailingDigits (tableName m) = some m := by decide

/-- Folding the collation maximum over canonicals table_(j+1) … starting
from table_j yields the last name, while every index stays below 100. -/
theorem maxCanon_fold (reg : TypesReg) : ∀ (j : Nat), 1 ≤ j → j + reg.length ≤ 99 →
    reg.map (·.canonical) = (List.range' (j+1) reg.length).map tableName →
    reg.foldl (fun acc e => match acc with
        | none => some e.canonical
        | some a => if strBytesLt a.data e.canonical.data then some e.canonical else some a)
      (some (tableName j)) = some (tableName (j + reg.length)) := by
  induction reg with
  | nil => intro j h1 h2 h3; simp
  | cons e reg ih =>
      intro j h1 h2 h3
      rw [List.length_cons, List.range'_succ] at h3
      simp only [List.map_cons, List.cons.injEq] at h3
      obtain ⟨he, hrest⟩ := h3
      have hlt : strBytesLt (tableName j).data (tableName (j+1)).data = true :=
        tableName_lt_succ j (by simp at h2 ⊢; omega) h1
      simp only [List.foldl_cons, he, hlt, if_true]
      have heq : j + 1 + reg.length = j + (e :: reg).length := by simp; omega
      rw [← heq]
      exact ih (j + 1) (by omega) (by simp at h2 ⊢; omega) (by simpa using hrest)

/-- ORDER BY canonical DESC LIMIT 1 returns table_0k on a registry whose
canonicals are table_01 … table_0k, for k at most 99. -/
theorem maxCanonical_spec (reg : TypesReg) (k : Nat) (h1 : 1 ≤ k) (h99 : k ≤ 99)
    (hmap : reg.map (·.canonical) = (List.range' 1 k).map tableName) :
    maxCanonical reg = some (tableName k) := by
  obtain ⟨k', rfl⟩ : ∃ k', k = k' + 1 := ⟨k - 1, by omega⟩
  cases reg with
  | nil => simp at hmap
  | cons e reg =>
      rw [List.range'_succ] at hmap
      simp only [List.map_cons, List.cons.injEq] at hmap
      obtain ⟨he, hrest⟩ := hmap
      have hlen : reg.length = k' := by
        have := congrArg List.length hrest
        simpa using this
      unfold maxCanonical
      simp only [List.foldl_cons, he]
      have := maxCanon_fold reg 1 (by omega) (by omega)
        (by rw [hlen]; simpa using hrest)
      rw [hlen, Nat.add_comm 1 k'] at this
      simpa using this

/-- On such a registry the computed next index really is k + 1. -/
theorem nextIdx_spec (reg : TypesReg) (k : Nat) (h99 : k ≤ 99)
    (hmap : reg.map (·.canonical) = (List.range' 1 k).map tableName) :
    nextIdx reg = k + 1 := by
  cases k with
  | zero =>
      have : reg = [] := by
        cases reg with
        | nil => rfl
        | cons e reg => simp at hmap
      subst this
      rfl
  | succ k' =>
      unfold nextIdx
      rw [maxCanonical_spec reg (k' + 1) (by omega) h99 hmap]
      show (trailingDigits (tableName (k' + 1))).getD 0 + 1 = k' + 1 + 1
      rw [tableName_trailing (k' + 1) (by omega) (by omega)]
      rfl

/-- Bucket names are distinct for distinct indices up to 100. -/
theorem tableName_inj (i j : Nat) (hi1 : 1 ≤ i) (hi : i ≤ 100) (hj1 : 1 ≤ j) (hj : j ≤ 100)
    (h : tableName i = tableName j) : i = j := by
  have h1 := tableName_trailing i (by omega) hi1
  have h2 := tableName_trailing j (by omega) hj1
  rw [h, h2] at h1
  exact (Option.some.injEq _ _).mp h1.symm

/-- One fresh allocation from a well-formed registry of k ≤ 99 buckets
appends exactly the row (token, table_(k+1), flag). -/
theorem alloc_fresh (reg : TypesReg) (k : Nat) (tok : String)
    (hmap : reg.map (·.canonical) = (List.range' 1 k).map tableName)
    (h99 : k ≤ 99)
    (hsan : sanitize_token tok = tok)
    (hfresh : tok ∉ reg.map (·.token)) :
    get_or_alloc_type reg tok =
      .ok (reg ++ [⟨tok, tableName (k + 1), if k + 1 > MAX_TYPES then 1 else 0⟩],
        tableName (k + 1)) := by
  have hnext := nextIdx_spec reg k h99 hmap
  have hfind : reg.find? (fun e => e.token = sanitize_token tok) = none := by
    rw [List.find?_eq_none]
    intro e he
    simp only [decide_eq_true_eq, hsan]
    intro h
    exact hfresh (h ▸ List.mem_map_of_mem (·.token) he)
  have hany : reg.any
      (fun e => e.token = sanitize_token tok || e.canonical = tableName (nextIdx reg)) = false := by
    rw [List.any_eq_false]
    intro e he
    simp only [Bool.or_eq_true, decide_eq_true_eq, not_or, hsan, hnext]
    refine ⟨fun h => hfresh (h ▸ List.mem_map_of_mem (·.token) he), fun h => ?_⟩
    have hmem : e.canonical ∈ reg.map (·.canonical) := List.mem_map_of_mem (·.canonical) he
    rw [hmap] at hmem
    obtain ⟨i, hi, hci⟩ := List.mem_map.mp hmem
    rw [List.mem_range'] at hi
    obtain ⟨m, hm, rfl⟩ := hi
    rw [h] at hci
    have := tableName_inj (k + 1) (1 + 1 * m) (by omega) (by omega) (by omega) (by omega) hci.symm
    omega
  rw [hsan] at hfind
  rw [hsan, hnext] at hany
  simp only [get_or_alloc_type, hsan, hnext, hfind, hany, Bool.false_eq_true, if_false]

/-- The first k bucket names are pairwise distinct, for k at most 100. -/
theorem tableNames_nodup (k : Nat) (hk : k ≤ 100) :
    (((List.range' 1 k).map tableName)).Nodup := by
  refine List.Nodup.map_on ?_ (List.nodup_range' _ _)
  intro x hx y hy hxy
  rw [List.mem_range'] at hx hy
  obtain ⟨i, hi, rfl⟩ := hx
  obtain ⟨j, hj, rfl⟩ := hy
  exact tableName_inj _ _ (by omega) (by omega) (by omega) (by omega) hxy

/-- C2 (amended): starting from a registry whose canonical names are
exactly table_01 … table_0k, resolving N distinct, previously unmapped,
already-sanitized tokens allocates N buckets with consecutive indices
k+1 … k+N — each one greater than the highest index assigned so far — and
assigns no canonical name twice, provided k + N ≤ 100.  Beyond 100 buckets
the lexicographic ORDER BY makes the computed next index wrong (see the
counterexample). -/
theorem claim_C2_amended :
    ∀ (toks : List String) (reg : TypesReg) (k : Nat),
      reg.map (·.canonical) = (List.range' 1 k).map tableName →
      toks.Nodup →
      (∀ t ∈ toks, sanitize_token t = t) →
      (∀ t ∈ toks, t ∉ reg.map (·.token)) →
      k + toks.length ≤ 100 →
      ∃ newE : TypesReg,
        allocTokens reg toks = .ok (reg ++ newE, (List.range' (k + 1) toks.length).map tableName) ∧
        newE.map (·.token) = toks ∧
        (reg ++ newE).map (·.canonical) = (List.range' 1 (k + toks.length)).map tableName ∧
        ((reg ++ newE).map (·.canonical)).Nodup := by
  intro toks
  induction toks with
  | nil =>
      intro reg k hmap hnd hsan hfresh hcap
      exact ⟨[], by simp [allocTokens], rfl, by simpa using hmap,
        by simp only [List.append_nil]; rw [hmap]; exact tableNames_nodup k (by omega)⟩
  | cons t ts ih =>
      intro reg k hmap hnd hsan hfresh hcap
      have hstep := alloc_fresh reg k t hmap (by simp at hcap; omega)
        (hsan t (List.mem_cons_self t ts)) (hfresh t (List.mem_cons_self t ts))
      set entry : TypeEntry := ⟨t, tableName (k + 1), if k + 1 > MAX_TYPES then 1 else 0⟩ with hentry
      have hmap1 : (reg ++ [entry]).map (·.canonical) = (List.range' 1 (k + 1)).map tableName := by
        rw [List.map_append, hmap, List.range'_concat, List.map_append]
        simp [hentry]
        rw [Nat.add_comm 1 k]
      have hnd' := (List.nodup_cons.mp hnd).2
      have htni := (List.nodup_cons.mp hnd).1
      have hres := ih (reg ++ [entry]) (k + 1) hmap1 hnd'
        (fun t' ht' => hsan t' (List.mem_cons_of_mem t ht'))
        (fun t' ht' => by
          rw [List.map_append, List.mem_append]
          push_neg
          refine ⟨hfresh t' (List.mem_cons_of_mem t ht'), ?_⟩
          simp only [List.map_cons, List.map_nil, List.mem_singleton, hentry]
          intro h
          exact htni (h ▸ ht'))
        (by simp at hcap ⊢; omega)
      obtain ⟨newE', halloc, htoks, hmap2, hnodup2⟩ := hres
      refine ⟨entry :: newE', ?_, ?_, ?_, ?_⟩
      · simp only [allocTokens, hstep, halloc, List.length_cons]
        rw [List.range'_succ, List.map_cons]
        simp [hentry, List.append_assoc]
      · simp [htoks, hentry]
      · rw [show reg ++ entry :: newE' = (reg ++ [entry]) ++ newE' by simp]
        rw [hmap2]
        congr 1
        simp
        omega
      · rw [show reg ++ entry :: newE' = (reg ++ [entry]) ++ newE' by simp]
        exact hnodup2

/-- Witness for C2 (amended): two fresh tokens from an empty registry get
table_01 and table_02. -/
theorem claim_C2_witness :
    ∃ newE : TypesReg,
      allocTokens [] ["alpha", "beta"] = .ok ([] ++ newE, (List.range' (0 + 1) 2).map tableName) ∧
      newE.map (·.token) = ["alpha", "beta"] ∧
      (([] : TypesReg) ++ newE).map (·.canonical) = (List.range' 1 (0 + 2)).map tableName ∧
      ((([] : TypesReg) ++ newE).map (·.canonical)).Nodup :=
  claim_C2_amended ["alpha", "beta"] [] 0 rfl (by decide) (by decide) (by decide) (by decide)

/-- C2 counterexample: in the reachable registry holding table_01 …
table_100 the highest assigned index is 100, yet the code computes the
"next" index as 100 — not 101 — because under the byte-wise ORDER BY used
to find the maximum, table_99 sorts above table_100; the insert then
violates the UNIQUE constraint on canonical and the resolution fails
instead of allocating a 101st bucket. -/
theorem claim_C2_counterexample :
    (reg100.map (·.canonical)).contains (tableName 100) = true ∧
    nextIdx reg100 = 100 ∧
    allocTokens reg100 ["zz"] = .error "UNIQUE constraint failed" :=
  ⟨by decide, by decide, rfl⟩

end Phase1

namespace Phase2

/-- The evolution loop appends exactly the non-reserved keys missing from
the column snapshot, both to the table's columns and (as version-1 rows
keyed by table and column) to the schema registry, provided no registry
row for the table names a column that is both outside the snapshot and
among the keys (so the ON CONFLICT update never fires). -/
theorem evolveKeys_spec :
    ∀ (ks : List String) (snapshot : List String) (table : String)
      (types : List (String × String)) (cols : List String) (reg : List SchemaEntry),
      ks.Nodup →
      (∀ e ∈ reg, e.table_name = table → e.column_name ∈ snapshot ∨ e.column_name ∉ ks) →
      evolveKeys snapshot table types ks (cols, reg) =
        (cols ++ newColsOf snapshot ks, reg ++ regAdds table types snapshot ks) := by
  intro ks
  induction ks with
  | nil =>
      intro snapshot table types cols reg hnd hinv
      simp [evolveKeys, newColsOf, regAdds]
  | cons k ks ih =>
      intro snapshot table types cols reg hnd hinv
      have hnd' := (List.nodup_cons.mp hnd).2
      have hkn := (List.nodup_cons.mp hnd).1
      by_cases hmeta : k ∈ metaCols
      · have hrec := ih snapshot table types cols reg hnd'
          (fun e he ht => (hinv e he ht).imp_right
            (fun h hm => h (List.mem_cons_of_mem k hm)))
        have hfilt : newColsOf snapshot (k :: ks) = newColsOf snapshot ks := by
          simp [newColsOf, hmeta]
        simp only [evolveKeys, if_pos hmeta, hrec, regAdds, hfilt]
      · by_cases hsnap : k ∈ snapshot
        · have hrec := ih snapshot table types cols reg hnd'
            (fun e he ht => (hinv e he ht).imp_right
              (fun h hm => h (List.mem_cons_of_mem k hm)))
          have hfilt : newColsOf snapshot (k :: ks) = newColsOf snapshot ks := by
            simp [newColsOf, hsnap]
          simp only [evolveKeys, if_neg hmeta, if_pos hsnap, hrec, regAdds, hfilt]
        · have hfind : reg.find? (fun e => e.table_name = table && e.column_name = k) = none := by
            rw [List.find?_eq_none]
            intro e he
            simp only [Bool.and_eq_true, decide_eq_true_eq, not_and]
            intro ht hc
            rcases hinv e he ht with h | h
            · exact hsnap (hc ▸ h)
            · exact h (hc ▸ List.mem_cons_self k ks)
          have hrec := ih snapshot table types (cols ++ [k])
            (reg ++ [⟨table, k, (((types.find? (fun p => p.1 = k)).map (·.2))).getD "text", 1⟩])
            hnd'
            (fun e he ht => by
              rcases List.mem_append.mp he with h | h
              · exact (hinv e h ht).imp_right
                  (fun hnk hm => hnk (List.mem_cons_of_mem k hm))
              · simp only [List.mem_singleton] at h
                subst h
                exact Or.inr hkn)
          simp only [evolveKeys, if_neg hmeta, if_neg hsnap, hfind, hrec]
          have hfilt : newColsOf snapshot (k :: ks) = k :: newColsOf snapshot ks := by
            simp [newColsOf, List.filter_cons, hmeta, hsnap]
          simp [regAdds, hfilt, List.append_assoc]

/-- A list of naturals that are all 1 is non-decreasing. -/
theorem chain_le_of_all_one (l : List Nat) (h : ∀ x ∈ l, x = 1) :
    List.Chain' (fun a b => a ≤ b) l := by
  induction l with
  | nil => exact List.chain'_nil
  | cons a l ih =>
      cases l with
      | nil => exact List.chain'_singleton a
      | cons b l' =>
          refine List.chain'_cons.mpr ⟨?_, ih (fun x hx => h x (List.mem_cons_of_mem a hx))⟩
          rw [h a (List.mem_cons_self _ _), h b (List.mem_cons_of_mem a (List.mem_cons_self _ _))]

/-- C3: one evolution pass records every column it adds in the schema
registry keyed by (table, column); the registry only grows by appending
(existing rows, their recorded types included, are untouched, so a type is
never changed or narrowed); the version markers — the code writes the
constant 1 — form a monotonically non-decreasing sequence; and re-running
evolution over the same keys once their columns exist changes nothing.
The invariant hypotheses hold in every state the loader itself builds:
registry rows are only written together with their ALTER TABLE, and only
with version 1. -/
theorem claim_C3_schema_history (snapshot : List String) (reg : List SchemaEntry)
    (table : String) (keys : List String) (types : List (String × String))
    (hnd : keys.Nodup)
    (hinv : ∀ e ∈ reg, e.table_name = table → e.column_name ∈ snapshot)
    (hver : ∀ e ∈ reg, e.version = 1) :
    evolveKeys snapshot table types keys (snapshot, reg) =
      (snapshot ++ newColsOf snapshot keys, reg ++ regAdds table types snapshot keys) ∧
    (∀ k ∈ newColsOf snapshot keys,
      (⟨table, k, (((types.find? (fun p => p.1 = k)).map (·.2))).getD "text", 1⟩ : SchemaEntry)
        ∈ reg ++ regAdds table types snapshot keys) ∧
    (∀ e ∈ reg ++ regAdds table types snapshot keys, e.version = 1) ∧
    List.Chain' (fun a b => a ≤ b)
      ((reg ++ regAdds table types snapshot keys).map (·.version)) ∧
    evolveKeys (snapshot ++ newColsOf snapshot keys) table types keys
        (snapshot ++ newColsOf snapshot keys, reg ++ regAdds table types snapshot keys) =
      (snapshot ++ newColsOf snapshot keys, reg ++ regAdds table types snapshot keys) := by
  have hver' : ∀ e ∈ reg ++ regAdds table types snapshot keys, e.version = 1 := by
    intro e he
    rcases List.mem_append.mp he with h | h
    · exact hver e h
    · obtain ⟨k, _, rfl⟩ := List.mem_map.mp h
      rfl
  refine ⟨?_, ?_, hver', ?_, ?_⟩
  · exact evolveKeys_spec keys snapshot table types snapshot reg hnd
      (fun e he ht => Or.inl (hinv e he ht))
  · intro k hk
    exact List.mem_append_right reg (List.mem_map_of_mem _ hk)
  · refine chain_le_of_all_one _ (fun x hx => ?_)
    obtain ⟨e, he, rfl⟩ := List.mem_map.mp hx
    exact hver' e he
  · have hspec := evolveKeys_spec keys (snapshot ++ newColsOf snapshot keys) table types
      (snapshot ++ newColsOf snapshot keys) (reg ++ regAdds table types snapshot keys) hnd
      (fun e he ht => by
        rcases List.mem_append.mp he with h | h
        · exact Or.inl (List.mem_append_left _ (hinv e h ht))
        · obtain ⟨k, hk, rfl⟩ := List.mem_map.mp h
          exact Or.inl (List.mem_append_right _ hk))
    rw [hspec]
    have hnil : newColsOf (snapshot ++ newColsOf snapshot keys) keys = [] := by
      rw [newColsOf, List.filter_eq_nil_iff]
      intro k hk
      simp only [Bool.and_eq_true, decide_eq_true_eq, not_and]
      intro hkm hks
      by_cases hks0 : k ∈ snapshot
      · exact hks (List.mem_append_left _ hks0)
      · refine hks (List.mem_append_right _ ?_)
        rw [newColsOf, List.mem_filter]
        exact ⟨hk, by simp [hkm, hks0]⟩
    simp only [regAdds, hnil]
    simp

/-- Witness for C3: evolving one fresh key col_a over a freshly created
canonical table. -/
theorem claim_C3_witness :
    evolveKeys metaCols "table_01" [("col_a", "text")] ["col_a"] (metaCols, ([] : List SchemaEntry)) =
      (metaCols ++ newColsOf metaCols ["col_a"],
        ([] : List SchemaEntry) ++ regAdds "table_01" [("col_a", "text")] metaCols ["col_a"]) ∧
    (∀ k ∈ newColsOf metaCols ["col_a"],
      (⟨"table_01", k,
          ((([("col_a", "text")].find? (fun p => p.1 = k)).map (fun p : String × String => p.2))).getD "text",
          1⟩ : SchemaEntry)
        ∈ ([] : List SchemaEntry) ++ regAdds "table_01" [("col_a", "text")] metaCols ["col_a"]) ∧
    (∀ e ∈ ([] : List SchemaEntry) ++ regAdds "table_01" [("col_a", "text")] metaCols ["col_a"], e.version = 1) ∧
    List.Chain' (fun a b => a ≤ b)
      ((([] : List SchemaEntry) ++ regAdds "table_01" [("col_a", "text")] metaCols ["col_a"]).map (·.version)) ∧
    evolveKeys (metaCols ++ newColsOf metaCols ["col_a"]) "table_01" [("col_a", "text")] ["col_a"]
        (metaCols ++ newColsOf metaCols ["col_a"],
          ([] : List SchemaEntry) ++ regAdds "table_01" [("col_a", "text")] metaCols ["col_a"]) =
      (metaCols ++ newColsOf metaCols ["col_a"],
        ([] : List SchemaEntry) ++ regAdds "table_01" [("col_a", "text")] metaCols ["col_a"]) :=
  claim_C3_schema_history metaCols [] "table_01" ["col_a"] [("col_a", "text")]
    (by decide) (by decide) (by decide)

end Phase2
